import Mathlib

/-!
Shallow embedding of `paddle/parameter/Argument.h` (struct `Argument`):
the batch-descriptor data model, the value/grad readiness synchronizer,
copy construction and assignment, the derived size queries, and the
cost-summation utility.  Stateful operations are modelled by explicit
state passing on the `Argument` structure; a blocking wait is modelled
as an `Option`-valued step that is `none` exactly when the wait
predicate is false (the call would suspend).  C++ `int`/`int64_t`
values are modelled by `Int` (no overflow is exercised by any claim),
`size_t` lengths by `Nat`, and the floating-point `real` by `Rat`
(only the summation structure matters).  Shared-pointer handles are
modelled by `Option` of a handle record that carries an `addr` field,
so reference identity of shared storage is equality of handles.
-/

namespace paddle

/-- Model of `MatrixPtr`'s pointee: a dense matrix handle.  `addr` is the
identity of the reference-counted buffer; `height`/`width` model
`getHeight()`/`getWidth()`; `sumVal` models the value returned by the
opaque reduce-sum collaborator `getSum()`. -/
structure Matrix where
  addr : Nat
  height : Nat
  width : Nat
  sumVal : Rat
  deriving Repr, DecidableEq

/-- `Matrix::getHeight()`. -/
def Matrix.getHeight (m : Matrix) : Nat := m.height

/-- `Matrix::getSum()` (opaque reduce-sum collaborator, modelled as a
stored attribute of the handle). -/
def Matrix.getSum (m : Matrix) : Rat := m.sumVal

/-- Model of `IVectorPtr`'s pointee: an integer vector handle. -/
structure IVector where
  addr : Nat
  size : Nat
  deriving Repr, DecidableEq

/-- `IVector::getSize()`. -/
def IVector.getSize (v : IVector) : Nat := v.size

/-- Model of `SVectorPtr`'s pointee (`std::vector<std::string>`). -/
structure SVector where
  addr : Nat
  size : Nat
  deriving Repr, DecidableEq

/-- Model of `UserDefinedVectorPtr`'s pointee (`std::vector<void*>`). -/
structure UserDefinedVector where
  addr : Nat
  size : Nat
  deriving Repr, DecidableEq

/-- Model of `ICpuGpuVectorPtr`'s pointee: a host/device mirrored int
vector; `data` is its logical contents (the host mirror). -/
structure ICpuGpuVector where
  addr : Nat
  data : List Int
  deriving Repr, DecidableEq

/-- `ICpuGpuVector::getSize()`. -/
def ICpuGpuVector.getSize (v : ICpuGpuVector) : Nat := v.data.length

/-- `ICpuGpuVector::getData(bool useGpu)`: with `useGpu = false` this is
the host-materialized contents; the model stores the logical contents
once, so both flags return `data`. -/
def ICpuGpuVector.getData (v : ICpuGpuVector) (_useGpu : Bool) : List Int :=
  v.data

/-- The batch descriptor `struct Argument`.  Field for field the data
members of the C++ struct, in declaration order; the two
`LockedCondition` members carry no logical state beyond the counters
and are not represented.  The C++ field `in` is a Lean keyword, hence
`inField`. -/
structure Argument where
  inField : Option Matrix
  value : Option Matrix
  ids : Option IVector
  grad : Option Matrix
  strs : Option SVector
  frameHeight : Nat
  frameWidth : Nat
  sequenceStartPositions : Option ICpuGpuVector
  subSequenceStartPositions : Option ICpuGpuVector
  cpuSequenceDims : Option IVector
  udp : Option UserDefinedVector
  deviceId : Int
  allCount : Int
  valueCount : Int
  gradCount : Int
  dataId : Int
  deriving Repr, DecidableEq

/-- The default constructor `Argument()`: all handles null, shape hints
0, `deviceId = -1`, all counters 0, `dataId = 0`. -/
def Argument.init : Argument :=
  { inField := none
    value := none
    ids := none
    grad := none
    strs := none
    frameHeight := 0
    frameWidth := 0
    sequenceStartPositions := none
    subSequenceStartPositions := none
    cpuSequenceDims := none
    udp := none
    deviceId := -1
    allCount := 0
    valueCount := 0
    gradCount := 0
    dataId := 0 }

/-- `Argument::operator=(const Argument&)`: assigns the fourteen listed
fields from `argument` into `this`; `valueCount` and `gradCount` are
not in the assignment list and keep the target's previous values. -/
def Argument.assign (this argument : Argument) : Argument :=
  { this with
    inField := argument.inField
    value := argument.value
    ids := argument.ids
    grad := argument.grad
    strs := argument.strs
    sequenceStartPositions := argument.sequenceStartPositions
    subSequenceStartPositions := argument.subSequenceStartPositions
    cpuSequenceDims := argument.cpuSequenceDims
    udp := argument.udp
    deviceId := argument.deviceId
    allCount := argument.allCount
    frameHeight := argument.frameHeight
    frameWidth := argument.frameWidth
    dataId := argument.dataId }

/-- The copy constructor `Argument(const Argument&)`: `*this = argument`
followed by `valueCount = 0; gradCount = 0; dataId = argument.dataId;`.
The members' indeterminate pre-assignment values are irrelevant: every
field is overwritten (here the pre-state is taken to be the default
constructor's). -/
def Argument.copy (argument : Argument) : Argument :=
  let this := Argument.assign Argument.init argument
  { this with valueCount := 0, gradCount := 0, dataId := argument.dataId }

/-- `Argument::notifyValueReady()`: under the condition's lock, sets
`valueCount = allCount` (and wakes all waiters). -/
def Argument.notifyValueReady (a : Argument) : Argument :=
  { a with valueCount := a.allCount }

/-- `Argument::waitValueReady()`: blocks until `valueCount != 0`, then
decrements `valueCount` under the lock.  `none` means the wait
predicate is false and the call suspends until a further notify. -/
def Argument.waitValueReady (a : Argument) : Option Argument :=
  if a.valueCount ≠ 0 then some { a with valueCount := a.valueCount - 1 }
  else none

/-- `Argument::notifyGradReady()`: under the condition's lock,
increments `gradCount` (and wakes all waiters). -/
def Argument.notifyGradReady (a : Argument) : Argument :=
  { a with gradCount := a.gradCount + 1 }

/-- `Argument::waitGradReady()`: blocks until `gradCount == allCount`,
then resets `gradCount = 0`.  `none` means the wait predicate is false
and the call suspends. -/
def Argument.waitGradReady (a : Argument) : Option Argument :=
  if a.gradCount = a.allCount then some { a with gradCount := 0 }
  else none

/-- `n` successive `waitValueReady()` calls, each proceeding only if its
wait predicate already holds (`none` as soon as one would block). -/
def iterWaitValue : Nat → Argument → Option Argument
  | 0, a => some a
  | n + 1, a =>
    match a.waitValueReady with
    | some b => iterWaitValue n b
    | none => none

/-- `n` successive `notifyGradReady()` calls. -/
def iterNotifyGrad : Nat → Argument → Argument
  | 0, a => a
  | n + 1, a => iterNotifyGrad n a.notifyGradReady

/-- `Argument::getBatchSize()`: the if-chain over
value / ids / grad / in / udp / strs, else 0. -/
def Argument.getBatchSize (a : Argument) : Int :=
  match a.value with
  | some value => (value.getHeight : Int)
  | none =>
    match a.ids with
    | some ids => (ids.getSize : Int)
    | none =>
      match a.grad with
      | some grad => (grad.getHeight : Int)
      | none =>
        match a.inField with
        | some i => (i.getHeight : Int)
        | none =>
          match a.udp with
          | some udp => (udp.size : Int)
          | none =>
            match a.strs with
            | some strs => (strs.size : Int)
            | none => 0

/-- `Argument::getNumSequences()`:
`sequenceStartPositions ? getSize() - 1 : getBatchSize()`. -/
def Argument.getNumSequences (a : Argument) : Int :=
  match a.sequenceStartPositions with
  | some v => (v.getSize : Int) - 1
  | none => a.getBatchSize

/-- `Argument::getNumSubSequences()`. -/
def Argument.getNumSubSequences (a : Argument) : Int :=
  match a.subSequenceStartPositions with
  | some v => (v.getSize : Int) - 1
  | none => a.getBatchSize

/-- `Argument::hasSubseq()`. -/
def Argument.hasSubseq (a : Argument) : Bool :=
  a.subSequenceStartPositions.isSome

/-- The two failure modes a call in this header can exhibit in the
model: `nullDeref` is a member call through a null `shared_ptr`
(undefined behaviour in C++, fail state in the model); `missingField`
is a checked, reported missing-field error (e.g. a `CHECK` failure).
No operation in the header ever produces `missingField`; the
constructor exists so the distinction claimed by the specification is
expressible. -/
inductive ArgFail where
  | nullDeref
  | missingField
  deriving Repr, DecidableEq

/-- Dereference of a possibly-null handle: `p->...` on a null
`shared_ptr` is undefined behaviour, modelled as `ArgFail.nullDeref`. -/
def deref {α : Type} : Option α → Except ArgFail α
  | some x => Except.ok x
  | none => Except.error ArgFail.nullDeref

/-- `Argument::getCpuStartPositions()`:
`hasSubseq() ? subSequenceStartPositions->getData(false)
             : sequenceStartPositions->getData(false)`.
Each arm dereferences its handle unconditionally. -/
def Argument.getCpuStartPositions (a : Argument) : Except ArgFail (List Int) :=
  if a.hasSubseq then
    (deref a.subSequenceStartPositions).map (fun v => v.getData false)
  else
    (deref a.sequenceStartPositions).map (fun v => v.getData false)

/-- One iteration of the loop in `Argument::sumCosts`: if `arg.value`
is present, construct `SetDevice device(arg.deviceId)` (the device
switch, recorded in the trace component) and add `arg.value->getSum()`
to the accumulated cost; otherwise skip the argument. -/
def sumCostsStep (acc : Rat × List Int) (arg : Argument) : Rat × List Int :=
  match arg.value with
  | some value => (acc.1 + value.getSum, acc.2 ++ [arg.deviceId])
  | none => acc

/-- `Argument::sumCosts(const std::vector<Argument>&)` with its device
trace: the fold of `sumCostsStep` from cost 0 and an empty trace. -/
def sumCostsTrace (arguments : List Argument) : Rat × List Int :=
  arguments.foldl sumCostsStep (0, [])

/-- The returned cost of `Argument::sumCosts`. -/
def sumCosts (arguments : List Argument) : Rat :=
  (sumCostsTrace arguments).1

/-- Running `j` successive `waitValueReady()` calls from a state whose
`valueCount` is at least `j` succeeds (no call blocks), and only
decrements `valueCount` by `j`. -/
theorem iterWaitValue_run (j : Nat) :
    ∀ b : Argument, (j : Int) ≤ b.valueCount →
      iterWaitValue j b = some { b with valueCount := b.valueCount - j } := by
  induction j with
  | zero =>
    intro b _
    simp [iterWaitValue]
  | succ n ih =>
    intro b h
    have hne : b.valueCount ≠ 0 := by
      push_cast at h
      omega
    rw [iterWaitValue, Argument.waitValueReady, if_pos hne]
    show iterWaitValue n { b with valueCount := b.valueCount - 1 } = _
    rw [ih { b with valueCount := b.valueCount - 1 } (by push_cast at h ⊢; omega)]
    have : b.valueCount - 1 - (n : Int) = b.valueCount - ((n + 1 : Nat) : Int) := by
      push_cast
      ring
    simp [this]

/-- Running `j` successive `notifyGradReady()` calls increments
`gradCount` by `j` and changes nothing else. -/
theorem iterNotifyGrad_run (j : Nat) :
    ∀ b : Argument, iterNotifyGrad j b = { b with gradCount := b.gradCount + j } := by
  induction j with
  | zero =>
    intro b
    simp [iterNotifyGrad]
  | succ n ih =>
    intro b
    rw [iterNotifyGrad, Argument.notifyGradReady, ih]
    have : b.gradCount + 1 + (n : Int) = b.gradCount + ((n + 1 : Nat) : Int) := by
      push_cast
      ring
    simp [this]

/-- A concrete descriptor with fan-out/fan-in degree 2, used by the
protocol witnesses. -/
def egArg2 : Argument :=
  { Argument.init with allCount := 2 }

/-- Claim C1: for an `Argument` with `allCount = k` (`k ≥ 1`) and
`valueCount = 0`, one `notifyValueReady()` sets `valueCount` to `k`;
each of `k` subsequent `waitValueReady()` calls finds the wait
predicate `valueCount != 0` true, decrements by one and returns, the
prefix of `j ≤ k` waits leaving `valueCount = k - j`, hence `0` after
all `k`; a `(k+1)`-th wait blocks (predicate false), and proceeds
again after a subsequent notify. -/
theorem valueReadinessProtocol (a : Argument) (k : Nat) (hk : 1 ≤ k)
    (hall : a.allCount = (k : Int)) (_hv : a.valueCount = 0) :
    a.notifyValueReady.valueCount = (k : Int) ∧
    (∀ j : Nat, j ≤ k →
      iterWaitValue j a.notifyValueReady =
        some { a.notifyValueReady with valueCount := (k : Int) - (j : Int) }) ∧
    (∃ b, iterWaitValue k a.notifyValueReady = some b ∧
      b.valueCount = 0 ∧
      b.waitValueReady = none ∧
      b.notifyValueReady.waitValueReady ≠ none) := by
  have hcount : a.notifyValueReady.valueCount = (k : Int) := by
    simp [Argument.notifyValueReady, hall]
  refine ⟨hcount, ?_, ?_⟩
  · intro j hj
    rw [iterWaitValue_run j a.notifyValueReady (by rw [hcount]; exact_mod_cast hj)]
    rw [hcount]
  · refine ⟨{ a.notifyValueReady with valueCount := 0 }, ?_, rfl, ?_, ?_⟩
    · rw [iterWaitValue_run k a.notifyValueReady (by rw [hcount])]
      rw [hcount]
      simp
    · simp [Argument.waitValueReady]
    · simp [Argument.waitValueReady, Argument.notifyValueReady, hall]
      omega

/-- Witness for C1 at `k = 2`: the notify arms the counter to 2, two
waits drain it to 0, and a third wait blocks until a further notify. -/
theorem valueReadinessProtocol_witness :
    1 ≤ 2 ∧ egArg2.allCount = ((2 : Nat) : Int) ∧ egArg2.valueCount = 0 ∧
    (∃ b, iterWaitValue 2 egArg2.notifyValueReady = some b ∧
      b.valueCount = 0 ∧
      b.waitValueReady = none ∧
      b.notifyValueReady.waitValueReady ≠ none) :=
  ⟨by decide, by decide, by decide,
    (valueReadinessProtocol egArg2 2 (by decide) (by decide) (by decide)).2.2⟩

/-- Claim C2: for an `Argument` with `allCount = k` and `gradCount = 0`,
every `notifyGradReady()` call increments `gradCount` by one; after
exactly `k` calls `gradCount == allCount` holds, so `waitGradReady()`
returns and resets `gradCount` to 0. -/
theorem gradReadinessProtocol (a : Argument) (k : Nat)
    (hall : a.allCount = (k : Int)) (hg : a.gradCount = 0) :
    (∀ b : Argument, b.notifyGradReady.gradCount = b.gradCount + 1) ∧
    (∀ j : Nat, (iterNotifyGrad j a).gradCount = (j : Int)) ∧
    (iterNotifyGrad k a).gradCount = (iterNotifyGrad k a).allCount ∧
    (∃ b, (iterNotifyGrad k a).waitGradReady = some b ∧ b.gradCount = 0) := by
  have hstep : ∀ j : Nat, (iterNotifyGrad j a).gradCount = (j : Int) := by
    intro j
    rw [iterNotifyGrad_run j a]
    simp [hg]
  have hall' : (iterNotifyGrad k a).allCount = (k : Int) := by
    rw [iterNotifyGrad_run k a]
    exact hall
  refine ⟨fun b => rfl, hstep, by rw [hstep k, hall'], ?_⟩
  refine ⟨{ iterNotifyGrad k a with gradCount := 0 }, ?_, rfl⟩
  rw [Argument.waitGradReady, if_pos (by rw [hstep k, hall'])]

/-- Witness for C2 at `k = 2`: two grad notifies raise the counter to
`allCount`, after which the wait returns and re-arms the barrier. -/
theorem gradReadinessProtocol_witness :
    egArg2.allCount = ((2 : Nat) : Int) ∧ egArg2.gradCount = 0 ∧
    (∃ b, (iterNotifyGrad 2 egArg2).waitGradReady = some b ∧ b.gradCount = 0) :=
  ⟨by decide, by decide,
    (gradReadinessProtocol egArg2 2 (by decide) (by decide)).2.2.2⟩

/-- Claim C3: copy-constructing an `Argument` yields a descriptor whose
`valueCount` and `gradCount` are both 0, whatever the source's counter
values, while every other field — in, value, ids, grad, strs,
sequenceStartPositions, subSequenceStartPositions, cpuSequenceDims,
udp, deviceId, allCount, frameHeight, frameWidth, dataId — equals the
source's, the storage handles being the same handles (same `addr`,
shared ownership) rather than deep copies. -/
theorem copyResetsCounters (a : Argument) :
    a.copy.valueCount = 0 ∧ a.copy.gradCount = 0 ∧
    a.copy.inField = a.inField ∧ a.copy.value = a.value ∧
    a.copy.ids = a.ids ∧ a.copy.grad = a.grad ∧ a.copy.strs = a.strs ∧
    a.copy.sequenceStartPositions = a.sequenceStartPositions ∧
    a.copy.subSequenceStartPositions = a.subSequenceStartPositions ∧
    a.copy.cpuSequenceDims = a.cpuSequenceDims ∧ a.copy.udp = a.udp ∧
    a.copy.deviceId = a.deviceId ∧ a.copy.allCount = a.allCount ∧
    a.copy.frameHeight = a.frameHeight ∧ a.copy.frameWidth = a.frameWidth ∧
    a.copy.dataId = a.dataId :=
  ⟨rfl, rfl, rfl, rfl, rfl, rfl, rfl, rfl, rfl, rfl, rfl, rfl, rfl, rfl,
    rfl, rfl⟩

/-- A target descriptor with in-flight synchronization counters, used to
refute claim C4. -/
def egDirty : Argument :=
  { Argument.init with valueCount := 3, gradCount := 7 }

/-- Counterexample to claim C4: assigning into a target whose
`valueCount = 3` and `gradCount = 7` does not zero them —
`operator=`'s assignment list omits both counters, so the target keeps
its previous values. -/
theorem assignResetsCounters_cex :
    ¬ ((Argument.assign egDirty Argument.init).valueCount = 0 ∧
       (Argument.assign egDirty Argument.init).gradCount = 0) := by
  decide

/-- Claim C4 as amended: `operator=` leaves the target's `valueCount`
and `gradCount` unchanged — it never transfers the source's in-flight
counters, but unlike copy-construction it does not reset the target's
counters to 0 either. -/
theorem assignPreservesTargetCounters (a b : Argument) :
    (Argument.assign b a).valueCount = b.valueCount ∧
    (Argument.assign b a).gradCount = b.gradCount :=
  ⟨rfl, rfl⟩

/-- The row counts of the six batch-bearing fields, in the
specification's priority order value → ids → grad → in → udp → strs:
matrix height for value/grad/in, element count for ids/udp/strs;
`none` where the field is absent. -/
def rowCountsInPriorityOrder (a : Argument) : List (Option Int) :=
  [a.value.map fun m => (m.height : Int),
   a.ids.map fun v => (v.size : Int),
   a.grad.map fun m => (m.height : Int),
   a.inField.map fun m => (m.height : Int),
   a.udp.map fun u => (u.size : Int),
   a.strs.map fun s => (s.size : Int)]

/-- The batch size as the specification words it: the row count of the
first present field in priority order, and 0 when none is present. -/
def batchSizeSpec (a : Argument) : Int :=
  ((rowCountsInPriorityOrder a).findSome? id).getD 0

/-- Claim C5: `getBatchSize()` returns the row count of the first
present field in the priority order value, ids, grad, in, udp, strs
(matrix height for value/grad/in, element count for ids/udp/strs), and
0 when none of these fields is present. -/
theorem getBatchSize_spec (a : Argument) :
    a.getBatchSize = batchSizeSpec a := by
  obtain ⟨i, v, ids, g, s, fh, fw, ssp, sssp, csd, udp, dev, ac, vc, gc, di⟩ := a
  cases v <;> cases ids <;> cases g <;> cases i <;> cases udp <;> cases s <;> rfl

/-- A boundary vector with two sequences: rows [0,2) and [2,5). -/
def egSeqVec : ICpuGpuVector :=
  { addr := 10, data := [0, 2, 5] }

/-- A finer boundary vector refining `egSeqVec`. -/
def egSubVec : ICpuGpuVector :=
  { addr := 11, data := [0, 1, 2, 5] }

/-- A descriptor carrying only `sequenceStartPositions`. -/
def egSeqOnly : Argument :=
  { Argument.init with sequenceStartPositions := some egSeqVec }

/-- A descriptor carrying both boundary vectors. -/
def egBoth : Argument :=
  { Argument.init with
    sequenceStartPositions := some egSeqVec
    subSequenceStartPositions := some egSubVec }

/-- Counterexample to claim C6: on a descriptor with neither boundary
vector present, `getCpuStartPositions()` evaluates
`sequenceStartPositions->getData(false)` on a null handle — an
unchecked null dereference (undefined behaviour), not a reported
MissingField error. -/
theorem getCpuStartPositions_cex :
    Argument.init.getCpuStartPositions = Except.error ArgFail.nullDeref ∧
    Except.error ArgFail.nullDeref ≠
      (Except.error ArgFail.missingField : Except ArgFail (List Int)) :=
  ⟨rfl, by simp⟩

/-- Claim C6 as amended: when neither boundary vector is present,
`getCpuStartPositions()` dereferences the null
`sequenceStartPositions` handle (undefined behaviour, no reported
error); when `subSequenceStartPositions` is present it returns that
vector's host data, and otherwise, when only `sequenceStartPositions`
is present, it returns that vector's host data. -/
theorem getCpuStartPositions_amended (a : Argument) :
    (a.subSequenceStartPositions = none → a.sequenceStartPositions = none →
      a.getCpuStartPositions = Except.error ArgFail.nullDeref) ∧
    (∀ v, a.subSequenceStartPositions = some v →
      a.getCpuStartPositions = Except.ok (v.getData false)) ∧
    (∀ v, a.subSequenceStartPositions = none →
      a.sequenceStartPositions = some v →
      a.getCpuStartPositions = Except.ok (v.getData false)) := by
  refine ⟨fun h1 h2 => ?_, fun v h => ?_, fun v h1 h2 => ?_⟩ <;>
    simp [Argument.getCpuStartPositions, Argument.hasSubseq, deref,
      Except.map, *]

/-- Witness for the amended C6, exercising all three branches: the
empty descriptor hits the null dereference, `egBoth` returns the
sub-sequence data, `egSeqOnly` returns the sequence data. -/
theorem getCpuStartPositions_amended_witness :
    (Argument.init.subSequenceStartPositions = none ∧
     Argument.init.sequenceStartPositions = none ∧
     Argument.init.getCpuStartPositions = Except.error ArgFail.nullDeref) ∧
    (egBoth.subSequenceStartPositions = some egSubVec ∧
     egBoth.getCpuStartPositions = Except.ok (egSubVec.getData false)) ∧
    (egSeqOnly.subSequenceStartPositions = none ∧
     egSeqOnly.sequenceStartPositions = some egSeqVec ∧
     egSeqOnly.getCpuStartPositions = Except.ok (egSeqVec.getData false)) :=
  ⟨⟨rfl, rfl, (getCpuStartPositions_amended Argument.init).1 rfl rfl⟩,
   ⟨rfl, (getCpuStartPositions_amended egBoth).2.1 egSubVec rfl⟩,
   ⟨rfl, rfl, (getCpuStartPositions_amended egSeqOnly).2.2 egSeqVec rfl rfl⟩⟩

/-- Claim C7: if `sequenceStartPositions` is present,
`getNumSequences()` returns its length minus 1; if absent, it returns
`getBatchSize()`. -/
theorem getNumSequences_spec (a : Argument) :
    (∀ v, a.sequenceStartPositions = some v →
      a.getNumSequences = (v.getSize : Int) - 1) ∧
    (a.sequenceStartPositions = none →
      a.getNumSequences = a.getBatchSize) := by
  refine ⟨fun v h => ?_, fun h => ?_⟩ <;>
    simp [Argument.getNumSequences, *]

/-- Witness for C7 on both branches: `egSeqOnly` has a 3-element
boundary vector and 2 sequences; the empty descriptor falls back to
`getBatchSize() = 0`. -/
theorem getNumSequences_spec_witness :
    (egSeqOnly.sequenceStartPositions = some egSeqVec ∧
     egSeqOnly.getNumSequences = (egSeqVec.getSize : Int) - 1) ∧
    (Argument.init.sequenceStartPositions = none ∧
     Argument.init.getNumSequences = Argument.init.getBatchSize) :=
  ⟨⟨rfl, (getNumSequences_spec egSeqOnly).1 egSeqVec rfl⟩,
   ⟨rfl, (getNumSequences_spec Argument.init).2 rfl⟩⟩

/-- The fold of `sumCostsStep` from an arbitrary accumulator: the cost
grows by the sum of `getSum` over the present values, and the trace
extends by the `deviceId`s of exactly the arguments whose `value` is
present, in order. -/
theorem sumCostsStep_foldl (arguments : List Argument) :
    ∀ (c : Rat) (t : List Int),
      arguments.foldl sumCostsStep (c, t) =
        (c + ((arguments.filterMap Argument.value).map Matrix.getSum).sum,
         t ++ (arguments.filter fun a => a.value.isSome).map
            Argument.deviceId) := by
  induction arguments with
  | nil => intro c t; simp
  | cons a rest ih =>
    intro c t
    rw [List.foldl_cons]
    cases hv : a.value with
    | none =>
      rw [sumCostsStep, hv, ih c t]
      simp [List.filterMap_cons, List.filter_cons, hv]
    | some m =>
      rw [sumCostsStep, hv]
      show List.foldl sumCostsStep (c + m.getSum, t ++ [a.deviceId]) rest = _
      rw [ih]
      simp [List.filterMap_cons, List.filter_cons, hv]
      ring

/-- Claim C10: `sumCosts` returns the sum of `value->getSum()` over
exactly those descriptors whose `value` field is present (descriptors
without a value contribute nothing), returns 0 on the empty list, and
the device context is switched to each summed descriptor's `deviceId`
before its reduce-sum (the trace lists exactly those `deviceId`s, in
order). -/
theorem sumCosts_spec (arguments : List Argument) :
    sumCosts arguments =
      ((arguments.filterMap Argument.value).map Matrix.getSum).sum ∧
    sumCosts ([] : List Argument) = 0 ∧
    (sumCostsTrace arguments).2 =
      (arguments.filter fun a => a.value.isSome).map Argument.deviceId := by
  refine ⟨?_, rfl, ?_⟩ <;>
    simp [sumCosts, sumCostsTrace, sumCostsStep_foldl arguments 0 []]

/-- Modelled from the spec: the body of the whole-descriptor overload
`Argument::concat(const std::vector<Argument>&, bool, hl_stream_t,
PassType)` is missing from the repository sources (Argument.h only
declares it at lines 231-233).  Per the spec it "concatenates their
sequence-boundary vectors with running offset adjustment".
`concatBoundariesFrom offset srcs` appends, for each source boundary
vector in order, its entries after the leading 0 shifted by the running
offset, which then advances by that source's batch size (the vector's
last entry). -/
def concatBoundariesFrom (offset : Int) : List (List Int) → List Int
  | [] => []
  | b :: rest =>
    (b.drop 1).map (fun x => x + offset) ++
      concatBoundariesFrom (offset + b.getLastD 0) rest

/-- Modelled from the spec: the full concatenated boundary vector,
starting at 0. -/
def concatBoundaries (srcs : List (List Int)) : List Int :=
  0 :: concatBoundariesFrom 0 srcs

/-- The boundary vector a source contributes: its
`sequenceStartPositions` contents when present; per the spec an absent
vector means every row is an independent sequence of length 1, i.e.
boundaries 0, 1, ..., batchSize. -/
def Argument.boundaryData (a : Argument) : List Int :=
  match a.sequenceStartPositions with
  | some v => v.data
  | none => (List.range (a.getBatchSize.toNat + 1)).map fun n => (n : Int)

/-- Modelled from the spec: the result of the whole-descriptor
`concat` overload, at the granularity claim C8 needs — the
concatenated value storage has the sources' total row count (sharing
the sources' column width, here the first source's), and the sequence
boundary vector is the running-offset concatenation of the sources'
boundary vectors. -/
def concatAll (srcs : List Argument) : Argument :=
  { Argument.init with
    value := some
      { addr := 0
        height := (srcs.map fun s => s.getBatchSize.toNat).sum
        width := ((srcs.head?.bind Argument.value).map Matrix.width).getD 0
        sumVal := ((srcs.filterMap Argument.value).map Matrix.getSum).sum }
    sequenceStartPositions := some
      { addr := 1, data := concatBoundaries (srcs.map Argument.boundaryData) } }

/-- `getBatchSize()` never returns a negative number: every branch is a
natural size or 0. -/
theorem getBatchSize_nonneg (a : Argument) : 0 ≤ a.getBatchSize := by
  obtain ⟨i, v, ids, g, s, _, _, _, _, _, udp, _, _, _, _, _⟩ := a
  cases v <;> cases ids <;> cases g <;> cases i <;> cases udp <;> cases s <;>
    simp [Argument.getBatchSize]

/-- `getLastD` distributes over append: the default of the right part
is the last of the left part. -/
theorem getLastD_append_eq (l1 l2 : List Int) (d : Int) :
    (l1 ++ l2).getLastD d = l2.getLastD (l1.getLastD d) := by
  simp only [List.getLastD_eq_getLast?, List.getLast?_append]
  cases l2.getLast? <;> simp [Option.or]

/-- A list whose `head?` is `some 0` is `0` consed on its tail. -/
theorem eq_zero_cons_tail (b : List Int) (h : b.head? = some 0) :
    b = 0 :: b.tail := by
  cases b with
  | nil => simp at h
  | cons x t =>
    simp only [List.head?_cons, Option.some.injEq] at h
    rw [h]
    rfl

/-- The last entry of the offset-adjusted concatenation is the offset
plus the sum of the sources' last entries (their batch sizes). -/
theorem concatBoundariesFrom_getLastD (srcs : List (List Int)) :
    (∀ b ∈ srcs, b.head? = some (0 : Int)) →
    ∀ offset : Int,
      (concatBoundariesFrom offset srcs).getLastD offset =
        offset + (srcs.map fun b => b.getLastD 0).sum := by
  induction srcs with
  | nil =>
    intro _ offset
    simp [concatBoundariesFrom]
  | cons b rest ih =>
    intro hb offset
    obtain ⟨t, rfl⟩ : ∃ t, b = 0 :: t :=
      ⟨b.tail, eq_zero_cons_tail b (hb b (List.mem_cons_self b rest))⟩
    rw [concatBoundariesFrom]
    have hmap : ((0 :: t).drop 1).map (fun x => x + offset) =
        t.map fun x => x + offset := rfl
    have hlast : (0 :: t).getLastD 0 = t.getLastD 0 := List.getLastD_cons 0 0 t
    rw [hmap, hlast, getLastD_append_eq]
    have hmapLast : (t.map fun x => x + offset).getLastD offset =
        t.getLastD 0 + offset := by
      have h0 := List.getLastD_map (fun x => x + offset) t 0
      simpa using h0
    rw [hmapLast, add_comm (t.getLastD 0) offset,
      ih (fun b' hb' => hb b' (List.mem_cons_of_mem _ hb'))
        (offset + t.getLastD 0)]
    simp only [List.map_cons, List.sum_cons, hlast]
    ring

/-- The offset-adjusted concatenation, with the running offset consed
on, is strictly increasing whenever every source boundary vector
starts at 0 and is strictly increasing. -/
theorem concatBoundariesFrom_chain (srcs : List (List Int)) :
    (∀ b ∈ srcs, b.head? = some (0 : Int) ∧ b.Chain' (fun x y => x < y)) →
    ∀ offset : Int,
      (offset :: concatBoundariesFrom offset srcs).Chain'
        (fun x y => x < y) := by
  induction srcs with
  | nil =>
    intro _ offset
    simp [concatBoundariesFrom]
  | cons b rest ih =>
    intro hb offset
    obtain ⟨hh, hchain⟩ := hb b (List.mem_cons_self b rest)
    obtain ⟨t, rfl⟩ : ∃ t, b = 0 :: t := ⟨b.tail, eq_zero_cons_tail b hh⟩
    have hrest : ∀ b' ∈ rest, b'.head? = some (0 : Int) ∧
        b'.Chain' (fun x y => x < y) :=
      fun b' hb' => hb b' (List.mem_cons_of_mem _ hb')
    rw [concatBoundariesFrom]
    have hdrop : ((0 :: t).drop 1).map (fun x => x + offset) =
        t.map fun x => x + offset := rfl
    have hlast : (0 :: t).getLastD 0 = t.getLastD 0 := List.getLastD_cons 0 0 t
    rw [hdrop, hlast]
    have hsplit : offset :: ((t.map fun x => x + offset) ++
        concatBoundariesFrom (offset + t.getLastD 0) rest) =
        (offset :: t.map fun x => x + offset) ++
        concatBoundariesFrom (offset + t.getLastD 0) rest := rfl
    rw [hsplit]
    have hih := ih hrest (offset + t.getLastD 0)
    have hheadChain : (offset :: t.map fun x => x + offset).Chain'
        (fun x y => x < y) := by
      have hm : (((0 :: t).map fun x => x + offset)).Chain'
          (fun x y => x < y) := by
        rw [List.chain'_map]
        exact hchain.imp fun h => by omega
      simpa using hm
    refine hheadChain.append hih.tail ?_
    intro x hx y hy
    have hx' : (offset :: t.map fun x => x + offset).getLastD 0 = x := by
      rw [List.getLastD_eq_getLast?, Option.mem_def.mp hx]
      rfl
    have hxval : x = offset + t.getLastD 0 := by
      rw [← hx', List.getLastD_cons]
      have h0 := List.getLastD_map (fun x => x + offset) t 0
      simp only [zero_add] at h0
      rw [h0]
      ring
    have hy' := (List.chain'_cons'.mp hih).1 y hy
    rw [hxval]
    exact hy'

/-- A descriptor of batch size 4 with boundary vector `[0, 4]`. -/
def egCat4 : Argument :=
  { Argument.init with
    value := some { addr := 20, height := 4, width := 3, sumVal := 0 }
    sequenceStartPositions := some { addr := 21, data := [0, 4] } }

/-- A descriptor of batch size 5 with boundary vector `[0, 5]`. -/
def egCat5 : Argument :=
  { Argument.init with
    value := some { addr := 22, height := 5, width := 3, sumVal := 0 }
    sequenceStartPositions := some { addr := 23, data := [0, 5] } }

/-- Sum of the truncated batch sizes equals the sum of the (always
nonnegative) batch sizes. -/
theorem sum_toNat_batchSizes (l : List Argument) :
    (((l.map fun s => s.getBatchSize.toNat).sum : Nat) : Int) =
      (l.map Argument.getBatchSize).sum := by
  induction l with
  | nil => simp
  | cons s rest ih =>
    simp only [List.map_cons, List.sum_cons, Nat.cast_add]
    rw [Int.toNat_of_nonneg (getBatchSize_nonneg s), ih]

/-- Claim C8 (spec-modelled `concat(sources)`): concatenating the
batch-4 and batch-5 descriptors with boundary vectors `[0,4]` and
`[0,5]` yields `getBatchSize() = 9` and boundary vector `[0,4,9]`;
in general, when every source carries a boundary vector starting at 0,
strictly increasing, and ending at its batch size, the result's batch
size is the sum of the sources' batch sizes and its boundary vector
starts at 0, is strictly increasing, and ends at that total. -/
theorem concat_whole_spec :
    ((concatAll [egCat4, egCat5]).getBatchSize = 9 ∧
     (concatAll [egCat4, egCat5]).sequenceStartPositions.map
        ICpuGpuVector.data = some [0, 4, 9]) ∧
    (∀ srcs : List Argument,
      (∀ s ∈ srcs, ∃ v, s.sequenceStartPositions = some v ∧
          v.data.head? = some 0 ∧ v.data.Chain' (fun x y => x < y) ∧
          v.data.getLastD 0 = s.getBatchSize) →
      (concatAll srcs).getBatchSize = (srcs.map Argument.getBatchSize).sum ∧
      ∃ w, (concatAll srcs).sequenceStartPositions = some w ∧
        w.data.head? = some 0 ∧
        w.data.Chain' (fun x y => x < y) ∧
        w.data.getLastD 0 = (concatAll srcs).getBatchSize) := by
  constructor
  · exact ⟨by decide, by decide⟩
  · intro srcs hsrcs
    have hBatch : (concatAll srcs).getBatchSize =
        (srcs.map Argument.getBatchSize).sum := by
      show (((srcs.map fun s => s.getBatchSize.toNat).sum : Nat) : Int) = _
      exact sum_toNat_batchSizes srcs
    refine ⟨hBatch, ⟨_, rfl, rfl, ?_, ?_⟩⟩
    · exact concatBoundariesFrom_chain (srcs.map Argument.boundaryData)
        (by
          intro b hbmem
          obtain ⟨s, hs, rfl⟩ := List.mem_map.mp hbmem
          obtain ⟨v, hv, hh, hc, _⟩ := hsrcs s hs
          rw [Argument.boundaryData, hv]
          exact ⟨hh, hc⟩) 0
    · show (concatBoundaries (srcs.map Argument.boundaryData)).getLastD 0 = _
      rw [concatBoundaries, List.getLastD_cons,
        concatBoundariesFrom_getLastD (srcs.map Argument.boundaryData)
          (by
            intro b hbmem
            obtain ⟨s, hs, rfl⟩ := List.mem_map.mp hbmem
            obtain ⟨v, hv, hh, _, _⟩ := hsrcs s hs
            rw [Argument.boundaryData, hv]
            exact hh) 0]
      rw [zero_add, List.map_map, hBatch]
      congr 1
      apply List.map_congr_left
      intro s hs
      obtain ⟨v, hv, _, _, hlast⟩ := hsrcs s hs
      show (Argument.boundaryData s).getLastD 0 = _
      rw [Argument.boundaryData, hv]
      exact hlast

/-- Witness for C8 at the two concrete sources `egCat4`, `egCat5`:
both hypotheses hold and the general conclusion follows there. -/
theorem concat_whole_spec_witness :
    (∀ s ∈ [egCat4, egCat5], ∃ v, s.sequenceStartPositions = some v ∧
        v.data.head? = some 0 ∧ v.data.Chain' (fun x y => x < y) ∧
        v.data.getLastD 0 = s.getBatchSize) ∧
    ((concatAll [egCat4, egCat5]).getBatchSize =
        ([egCat4, egCat5].map Argument.getBatchSize).sum ∧
      ∃ w, (concatAll [egCat4, egCat5]).sequenceStartPositions = some w ∧
        w.data.head? = some 0 ∧
        w.data.Chain' (fun x y => x < y) ∧
        w.data.getLastD 0 = (concatAll [egCat4, egCat5]).getBatchSize) := by
  have hsrc : ∀ s ∈ [egCat4, egCat5], ∃ v,
      s.sequenceStartPositions = some v ∧
      v.data.head? = some 0 ∧ v.data.Chain' (fun x y => x < y) ∧
      v.data.getLastD 0 = s.getBatchSize := by
    intro s hs
    rcases List.mem_cons.mp hs with rfl | hs'
    · exact ⟨_, rfl, rfl,
        by simp [List.chain'_cons, List.chain'_singleton], by decide⟩
    rcases List.mem_cons.mp hs' with rfl | hs''
    · exact ⟨_, rfl, rfl,
        by simp [List.chain'_cons, List.chain'_singleton], by decide⟩
    exact absurd hs'' (List.not_mem_nil s)
  exact ⟨hsrc, concat_whole_spec.2 [egCat4, egCat5] hsrc⟩

/-- Modelled from the spec: the body of `Argument::splitByDataId` is
missing from the repository sources (Argument.h only declares it at
lines 238-239).  Per the spec it "partitions an ordered sequence of
descriptors into groups, preserving relative order within each group,
where descriptors are assigned to a new group each time `dataId`
decreases relative to the previous descriptor's `dataId`".  Structural
recursion from the left: the descriptor after `a` begins a new group
exactly when its `dataId` is smaller than `a`'s. -/
def splitStep (a : Argument) : List (List Argument) → List (List Argument)
  | [] => [[a]]
  | [] :: gs => [a] :: gs
  | (b :: g) :: gs =>
    if b.dataId < a.dataId then [a] :: (b :: g) :: gs
    else (a :: b :: g) :: gs

/-- See `splitStep`: fold of the grouping step over the list, from the
right, so that each descriptor is compared with the one after it. -/
def splitByDataId : List Argument → List (List Argument)
  | [] => []
  | a :: rest => splitStep a (splitByDataId rest)

/-- Concatenating the groups of `splitByDataId` restores the input
list: the partition preserves every descriptor and the relative
order. -/
theorem splitByDataId_flatten (l : List Argument) :
    (splitByDataId l).flatten = l := by
  induction l with
  | nil => rfl
  | cons a rest ih =>
    rw [splitByDataId]
    rcases h : splitByDataId rest with _ | ⟨g, gs⟩
    · rw [h] at ih
      simp only [List.flatten_nil] at ih
      simp only [splitStep]
      simp [← ih]
    · rcases g with _ | ⟨b, g⟩
      · rw [h] at ih
        simp only [List.flatten_cons, List.nil_append] at ih
        simp only [splitStep]
        simp [List.flatten_cons, ih]
      · rw [h] at ih
        simp only [List.flatten_cons] at ih
        simp only [splitStep]
        by_cases hlt : b.dataId < a.dataId
        · rw [if_pos hlt]
          simp only [List.flatten_cons, List.singleton_append, List.cons_append]
          simp only [List.cons_append] at ih
          rw [ih]
          simp
        · rw [if_neg hlt]
          simp only [List.flatten_cons, List.cons_append]
          simp only [List.cons_append] at ih
          rw [ih]

/-- Structure of the groups produced by `splitByDataId`: every group is
nonempty with (weakly) non-decreasing `dataId`s inside, and at every
group boundary the `dataId` strictly decreases from the last
descriptor of one group to the first descriptor of the next. -/
theorem splitByDataId_groups (l : List Argument) :
    (∀ g ∈ splitByDataId l, g ≠ [] ∧
       g.Chain' (fun x y => x.dataId ≤ y.dataId)) ∧
    (splitByDataId l).Chain'
      (fun g h => ∀ x ∈ g.getLast?, ∀ y ∈ h.head?, y.dataId < x.dataId) := by
  induction l with
  | nil => exact ⟨fun g hg => absurd hg (List.not_mem_nil g), List.chain'_nil⟩
  | cons a rest ih =>
    obtain ⟨ihg, ihc⟩ := ih
    rw [splitByDataId]
    rcases h : splitByDataId rest with _ | ⟨g, gs⟩
    · simp only [splitStep]
      refine ⟨fun g' hg' => ?_, List.chain'_singleton _⟩
      rw [List.mem_singleton.mp hg']
      exact ⟨List.cons_ne_nil a [], List.chain'_singleton a⟩
    · rw [h] at ihg ihc
      rcases g with _ | ⟨b, g⟩
      · exact absurd (ihg [] (List.mem_cons_self [] gs)).1 (by simp)
      · simp only [splitStep]
        by_cases hlt : b.dataId < a.dataId
        · rw [if_pos hlt]
          refine ⟨fun g' hg' => ?_, ?_⟩
          · rcases List.mem_cons.mp hg' with rfl | hmem
            · exact ⟨List.cons_ne_nil a [], List.chain'_singleton a⟩
            · exact ihg g' hmem
          · rw [List.chain'_cons']
            refine ⟨?_, ihc⟩
            intro h' hh' x hx y hy
            rw [List.head?_cons, Option.mem_def, Option.some.injEq] at hh'
            rw [List.getLast?_singleton, Option.mem_def,
              Option.some.injEq] at hx
            subst hh' hx
            rw [List.head?_cons, Option.mem_def, Option.some.injEq] at hy
            subst hy
            exact hlt
        · rw [if_neg hlt]
          have hba : a.dataId ≤ b.dataId := le_of_not_lt hlt
          refine ⟨fun g' hg' => ?_, ?_⟩
          · rcases List.mem_cons.mp hg' with rfl | hmem
            · refine ⟨List.cons_ne_nil a (b :: g), ?_⟩
              rw [List.chain'_cons]
              exact ⟨hba, (ihg (b :: g) (List.mem_cons_self _ gs)).2⟩
            · exact ihg g' (List.mem_cons_of_mem _ hmem)
          · rw [List.chain'_cons']
            obtain ⟨hR, hgs⟩ := List.chain'_cons'.mp ihc
            refine ⟨?_, hgs⟩
            intro h' hh' x hx y hy
            rw [List.getLast?_cons_cons] at hx
            exact hR h' hh' x hx y hy

/-- Five descriptors whose `dataId`s form the sequence `[0,1,2,0,1]`. -/
def egD0 : Argument := Argument.init

/-- Descriptor with `dataId = 1`. -/
def egD1 : Argument := { Argument.init with dataId := 1 }

/-- Descriptor with `dataId = 2`. -/
def egD2 : Argument := { Argument.init with dataId := 2 }

/-- Claim C9 (spec-modelled `splitByDataId`): the `dataId` sequence
`[0,1,2,0,1]` yields exactly the two groups `[0,1,2]` and `[0,1]`;
in general the groups concatenate back to the input (relative order
preserved), every group is nonempty with non-decreasing `dataId`s, and
a new group starts exactly where `dataId` decreases relative to the
previous descriptor (strict decrease across every group boundary). -/
theorem splitByDataId_spec :
    splitByDataId [egD0, egD1, egD2, egD0, egD1] =
      [[egD0, egD1, egD2], [egD0, egD1]] ∧
    (∀ l : List Argument, (splitByDataId l).flatten = l) ∧
    (∀ l : List Argument, ∀ g ∈ splitByDataId l,
      g ≠ [] ∧ g.Chain' (fun x y => x.dataId ≤ y.dataId)) ∧
    (∀ l : List Argument, (splitByDataId l).Chain'
      (fun g h => ∀ x ∈ g.getLast?, ∀ y ∈ h.head?, y.dataId < x.dataId)) :=
  ⟨by decide, splitByDataId_flatten,
    fun l => (splitByDataId_groups l).1,
    fun l => (splitByDataId_groups l).2⟩

/-- Witness for C9: on the `[0,1,2,0,1]` input, the first produced
group is a member of the output and is nonempty with non-decreasing
`dataId`s. -/
theorem splitByDataId_spec_witness :
    [egD0, egD1, egD2] ∈ splitByDataId [egD0, egD1, egD2, egD0, egD1] ∧
    ([egD0, egD1, egD2] ≠ [] ∧
      [egD0, egD1, egD2].Chain' (fun x y => x.dataId ≤ y.dataId)) :=
  ⟨by decide,
    splitByDataId_spec.2.2.1 [egD0, egD1, egD2, egD0, egD1]
      [egD0, egD1, egD2] (by decide)⟩

end paddle
